import Mathlib

/-!
# Shallow embedding of the mangol risk/margin accounting engine

This file embeds the core data model and operations of `src/mango/src/types.rs`
(the margin/health accounting engine of the mangol repository) and proves the
specification claims about them.

Modelling conventions:
* The on-chain fixed-point type `I80F48` is modelled as the exact rationals `ℚ`.
  All claims under study are about the algebraic structure of the computations,
  not about the rounding of individual fixed-point bits.
* Rust `i64` quantities are modelled as `ℤ`, `u64`/`usize` quantities as `ℕ`.
  `u64` subtractions in the source are modelled by truncated `ℕ` subtraction;
  the claims only exercise the non-wrapping domain (`now_ts ≥ last_updated`,
  `time_final ≥ period_start`).
* Fixed-size arrays (`[T; 16]`, `[T; 15]`) are modelled as total functions
  `ℕ → T` together with the explicit loop bounds (`num_oracles`,
  `num_node_banks`, `MAX_TOKENS`) that the source iterates over.
* `checked_*` arithmetic that can only fail by overflow is modelled by the
  exact (non-overflowing) operation on `ℤ`/`ℚ`.  `checked_div(..).unwrap()`
  calls whose divisor can be zero are either guarded by the same condition the
  source guards them with (`unwrap_or(ZERO)` becomes `ℚ` division, which also
  yields `0` on a zero divisor) or reflected as an `Option` result / a
  positivity hypothesis on the theorem.
* Solana `Pubkey` values are only ever compared for equality by this engine,
  so they are modelled as `ℕ`.
-/

namespace Mangol

/-- Solana account identifier; the engine only compares these for equality. -/
abbrev Pubkey := ℕ

/-- `MAX_TOKENS` from `types.rs`. -/
def MAX_TOKENS : ℕ := 16

/-- `MAX_PAIRS = MAX_TOKENS - 1` from `types.rs`. -/
def MAX_PAIRS : ℕ := 15

/-- `QUOTE_INDEX = MAX_TOKENS - 1` from `types.rs`. -/
def QUOTE_INDEX : ℕ := 15

/-- `YEAR` (seconds) from `types.rs`. -/
def YEAR : ℚ := 31536000

/-- `MAX_RATE_ADJ` from `types.rs`. -/
def MAX_RATE_ADJ : ℚ := 4

/-- `MIN_RATE_ADJ` from `types.rs`. -/
def MIN_RATE_ADJ : ℚ := 1/4

/-- `CENTIBPS_PER_UNIT` from `types.rs`. -/
def CENTIBPS_PER_UNIT : ℚ := 1000000

/-- The three health regimes (`HealthType` in `types.rs`). -/
inductive HealthType where
  | Maint
  | Init
  | Equity
deriving DecidableEq, Repr

/-- `TokenInfo` from `types.rs` (semantic fields only; padding omitted). -/
structure TokenInfo where
  mint : Pubkey
  root_bank : Pubkey
  decimals : ℕ
deriving DecidableEq, Repr

/-- `SpotMarketInfo` from `types.rs`. -/
structure SpotMarketInfo where
  spot_market : Pubkey
  maint_asset_weight : ℚ
  init_asset_weight : ℚ
  maint_liab_weight : ℚ
  init_liab_weight : ℚ
  liquidation_fee : ℚ
deriving DecidableEq, Repr

/-- `PerpMarketInfo` from `types.rs`. -/
structure PerpMarketInfo where
  perp_market : Pubkey
  maint_asset_weight : ℚ
  init_asset_weight : ℚ
  maint_liab_weight : ℚ
  init_liab_weight : ℚ
  liquidation_fee : ℚ
  maker_fee : ℚ
  taker_fee : ℚ
  base_lot_size : ℤ
  quote_lot_size : ℤ
deriving DecidableEq, Repr

/-- `MangoGroup` from `types.rs` — the fields read by the health engine.
Arrays are total functions indexed by slot; the source iterates slots
`0..num_oracles` (market slots) and `0..MAX_TOKENS` (token slots). -/
structure MangoGroup where
  num_oracles : ℕ
  tokens : ℕ → TokenInfo
  spot_markets : ℕ → SpotMarketInfo
  perp_markets : ℕ → PerpMarketInfo
  ref_surcharge_centibps : ℕ
  ref_share_centibps : ℕ
  ref_mngo_required : ℕ

/-- `MangoGroup::find_token_index`: first token slot whose mint equals the
given key (a linear `iter().position` scan over the `MAX_TOKENS` slots). -/
def MangoGroup.find_token_index (g : MangoGroup) (mint_pk : Pubkey) : Option ℕ :=
  (List.range MAX_TOKENS).find? (fun i => (g.tokens i).mint = mint_pk)

/-- `PriceCache` from `types.rs`. -/
structure PriceCache where
  price : ℚ
  last_update : ℕ
deriving DecidableEq, Repr

/-- `RootBankCache` from `types.rs`. -/
structure RootBankCache where
  deposit_index : ℚ
  borrow_index : ℚ
  last_update : ℕ
deriving DecidableEq, Repr

/-- `PerpMarketCache` from `types.rs`. -/
structure PerpMarketCache where
  long_funding : ℚ
  short_funding : ℚ
  last_update : ℕ
deriving DecidableEq, Repr

/-- `MangoCache` from `types.rs`: parallel per-slot cache arrays. -/
structure MangoCache where
  price_cache : ℕ → PriceCache
  root_bank_cache : ℕ → RootBankCache
  perp_market_cache : ℕ → PerpMarketCache

/-- `NodeBank` from `types.rs` (deposit/borrow shares of one sub-ledger). -/
structure NodeBank where
  deposits : ℚ
  borrows : ℚ
deriving DecidableEq, Repr

/-- `RootBank` from `types.rs` — per-token lending pool state. -/
structure RootBank where
  optimal_util : ℚ
  optimal_rate : ℚ
  max_rate : ℚ
  num_node_banks : ℕ
  node_banks : ℕ → NodeBank
  deposit_index : ℚ
  borrow_index : ℚ
  last_updated : ℕ

/-- Modelled from the spec: `compute_interest_rate` lives in the repository's
`utils` module (`crate::utils`), which is not present under `src/`; only its
caller `RootBank::update_index` is.  The spec describes it as the
optimal-utilization two-slope piecewise-linear interest curve whose parameters
(`optimal_util`, `optimal_rate`, `max_rate`) come from the bank state: below
the optimal utilization the rate grows linearly from `0` to `optimal_rate`,
above it linearly from `optimal_rate` to `max_rate`. -/
def compute_interest_rate (bank : RootBank) (utilization : ℚ) : ℚ :=
  if utilization ≤ bank.optimal_util then
    utilization / bank.optimal_util * bank.optimal_rate
  else
    bank.optimal_rate +
      (utilization - bank.optimal_util) / (1 - bank.optimal_util) *
        (bank.max_rate - bank.optimal_rate)

/-- `RootBank::update_index` from `types.rs`.  The node banks are passed as the
list of sub-ledgers the source receives as account slices.  The `u64`
difference `now_ts - last_updated` is truncated `ℕ` subtraction; `utilization`
uses `ℚ` division, which returns `0` on a zero divisor exactly as the source's
`checked_div(..).unwrap_or(ZERO_I80F48)` does. -/
def RootBank.update_index (bank : RootBank) (node_bank_ais : List NodeBank)
    (now_ts : ℕ) : RootBank :=
  let native_deposits : ℚ :=
    node_bank_ais.foldl (fun acc nb => acc + nb.deposits * bank.deposit_index) 0
  let native_borrows : ℚ :=
    node_bank_ais.foldl (fun acc nb => acc + nb.borrows * bank.borrow_index) 0
  let utilization : ℚ := native_borrows / native_deposits
  let interest_rate : ℚ := compute_interest_rate bank utilization
  let borrow_interest : ℚ := interest_rate * ((now_ts - bank.last_updated : ℕ) : ℚ)
  let deposit_interest : ℚ := borrow_interest * utilization
  let bank' := { bank with last_updated := now_ts }
  if borrow_interest ≤ 0 ∨ deposit_interest ≤ 0 then
    bank'
  else
    { bank' with
      borrow_index := bank.borrow_index * borrow_interest / YEAR + bank.borrow_index
      deposit_index := bank.deposit_index * deposit_interest / YEAR + bank.deposit_index }

/-- `PerpAccount` from `types.rs` — one per-market derivative position. -/
structure PerpAccount where
  base_position : ℤ
  quote_position : ℚ
  long_settled_funding : ℚ
  short_settled_funding : ℚ
  bids_quantity : ℤ
  asks_quantity : ℤ
  taker_base : ℤ
  taker_quote : ℤ
  mngo_accrued : ℕ
deriving DecidableEq, Repr

/-- `MangoAccount` from `types.rs` — the fields read by the health engine. -/
structure MangoAccount where
  in_margin_basket : ℕ → Bool
  deposits : ℕ → ℚ
  borrows : ℕ → ℚ
  perp_accounts : ℕ → PerpAccount

/-- `MangoAccount::get_native_deposit`: deposit shares times deposit index. -/
def MangoAccount.get_native_deposit (ma : MangoAccount)
    (root_bank_cache : RootBankCache) (token_i : ℕ) : ℚ :=
  ma.deposits token_i * root_bank_cache.deposit_index

/-- `MangoAccount::get_net`: net native balance for a token slot — deposits
valued by the deposit index when strictly positive, otherwise negated borrows
valued by the borrow index when strictly positive, otherwise zero. -/
def MangoAccount.get_net (ma : MangoAccount) (bank_cache : RootBankCache)
    (token_index : ℕ) : ℚ :=
  if 0 < ma.deposits token_index then
    ma.deposits token_index * bank_cache.deposit_index
  else if 0 < ma.borrows token_index then
    -(ma.borrows token_index * bank_cache.borrow_index)
  else 0

/-- `RootBank::socialize_loss` from `types.rs`.  Sums the deposit shares of the
first `num_node_banks` node banks, computes the native loss from the bankrupt
account's borrow shares, and reduces `deposit_index` proportionally, mirroring
the new index into the token's root-bank cache.  Returns `none` when
`native_deposits` is zero (the source's `checked_div(..).unwrap()` panics
there), otherwise `some ((native_loss, percentage_loss), bank', cache')`. -/
def RootBank.socialize_loss (bank : RootBank) (token_index : ℕ)
    (mango_cache : MangoCache) (bankrupt_account : MangoAccount) :
    Option ((ℚ × ℚ) × RootBank × MangoCache) :=
  let static_deposits : ℚ :=
    (List.range bank.num_node_banks).foldl
      (fun acc i => acc + (bank.node_banks i).deposits) 0
  let native_deposits : ℚ := static_deposits * bank.deposit_index
  let loss : ℚ := bankrupt_account.borrows token_index
  let native_loss : ℚ := loss * bank.borrow_index
  if native_deposits = 0 then none
  else
    let percentage_loss : ℚ := native_loss / native_deposits
    let new_deposit_index : ℚ :=
      bank.deposit_index - percentage_loss * bank.deposit_index
    let bank' := { bank with deposit_index := new_deposit_index }
    let cache' :=
      { mango_cache with
        root_bank_cache := fun j =>
          if j = token_index then
            { mango_cache.root_bank_cache j with deposit_index := new_deposit_index }
          else mango_cache.root_bank_cache j }
    some ((native_loss, percentage_loss), bank', cache')

/-- `PerpAccount::get_quote_position`: the quote position adjusted for
unsettled funding on the open base position. -/
def PerpAccount.get_quote_position (pa : PerpAccount) (pmc : PerpMarketCache) : ℚ :=
  if 0 < pa.base_position then
    pa.quote_position -
      (pmc.long_funding - pa.long_settled_funding) * (pa.base_position : ℚ)
  else if pa.base_position < 0 then
    pa.quote_position -
      (pmc.short_funding - pa.short_settled_funding) * (pa.base_position : ℚ)
  else pa.quote_position

/-- `PerpAccount::get_val` from `types.rs`: unweighted worst-case
`(base_value, quote_value)` of a perp position.  Compares the absolute net
base of the "all resting bids fill" and "all resting asks fill" scenarios and
returns the valuation of the strictly larger one (the ask scenario on ties). -/
def PerpAccount.get_val (pa : PerpAccount) (pmi : PerpMarketInfo)
    (pmc : PerpMarketCache) (price : ℚ) : ℚ × ℚ :=
  let curr_pos : ℤ := pa.base_position + pa.taker_base
  let bids_base_net : ℤ := curr_pos + pa.bids_quantity
  let asks_base_net : ℤ := curr_pos - pa.asks_quantity
  if |bids_base_net| > |asks_base_net| then
    let base : ℚ := ((bids_base_net * pmi.base_lot_size : ℤ) : ℚ) * price
    let quote : ℚ := pa.get_quote_position pmc
      + ((pa.taker_quote * pmi.quote_lot_size : ℤ) : ℚ)
      - ((pa.bids_quantity * pmi.base_lot_size : ℤ) : ℚ) * price
    (base, quote)
  else
    let base : ℚ := ((asks_base_net * pmi.base_lot_size : ℤ) : ℚ) * price
    let quote : ℚ := pa.get_quote_position pmc
      + ((pa.taker_quote * pmi.quote_lot_size : ℤ) : ℚ)
      + ((pa.asks_quantity * pmi.base_lot_size : ℤ) : ℚ) * price
    (base, quote)

/-- `PerpAccount::sim_get_val` from `types.rs`: `get_val` with the four
exposure fields provisionally incremented by caller-supplied deltas, without
mutating the stored position. -/
def PerpAccount.sim_get_val (pa : PerpAccount) (pmi : PerpMarketInfo)
    (pmc : PerpMarketCache) (price : ℚ)
    (taker_base taker_quote bids_quantity asks_quantity : ℤ) : ℚ × ℚ :=
  let taker_base : ℤ := pa.taker_base + taker_base
  let taker_quote : ℤ := pa.taker_quote + taker_quote
  let bids_quantity : ℤ := pa.bids_quantity + bids_quantity
  let asks_quantity : ℤ := pa.asks_quantity + asks_quantity
  let curr_pos : ℤ := pa.base_position + taker_base
  let bids_base_net : ℤ := curr_pos + bids_quantity
  let asks_base_net : ℤ := curr_pos - asks_quantity
  if |bids_base_net| > |asks_base_net| then
    let base : ℚ := ((bids_base_net * pmi.base_lot_size : ℤ) : ℚ) * price
    let quote : ℚ := pa.get_quote_position pmc
      + ((taker_quote * pmi.quote_lot_size : ℤ) : ℚ)
      - ((bids_quantity * pmi.base_lot_size : ℤ) : ℚ) * price
    (base, quote)
  else
    let base : ℚ := ((asks_base_net * pmi.base_lot_size : ℤ) : ℚ) * price
    let quote : ℚ := pa.get_quote_position pmc
      + ((taker_quote * pmi.quote_lot_size : ℤ) : ℚ)
      + ((asks_quantity * pmi.base_lot_size : ℤ) : ℚ) * price
    (base, quote)

/-- `PerpAccount::is_active` from `types.rs`. -/
def PerpAccount.is_active (pa : PerpAccount) : Bool :=
  pa.base_position ≠ 0 ∨ pa.quote_position ≠ 0 ∨ pa.bids_quantity ≠ 0 ∨
    pa.asks_quantity ≠ 0 ∨ pa.taker_base ≠ 0 ∨ pa.taker_quote ≠ 0

/-- `LiquidityMiningInfo` from `types.rs`. -/
structure LiquidityMiningInfo where
  rate : ℚ
  max_depth_bps : ℚ
  period_start : ℕ
  target_period_length : ℕ
  mngo_left : ℕ
  mngo_per_period : ℕ
deriving DecidableEq, Repr

/-- `PerpAccount::convert_points` from `types.rs`.  Points are converted to
payout units at `lmi.rate`; if they cover at least the remaining period budget
(`mngo_left / rate` points) the whole budget is awarded, the period is rolled
(rate re-tuned by the clamped period-length ratio, `period_start` moved to
`time_final`, budget reset) and the remainder is converted in the fresh
period.  Every conversion is capped at `mngo_per_period` and deducted from
`mngo_left`.  The source's `to_num::<u64>()` truncation of the earned amount
is `Int.toNat ∘ Int.floor`; its divisions by `rate` and
`target_period_length` panic on zero, which the theorems exclude by
positivity hypotheses. -/
def PerpAccount.convert_points (pa : PerpAccount) (lmi : LiquidityMiningInfo)
    (time_final : ℕ) (points : ℚ) : PerpAccount × LiquidityMiningInfo :=
  let points_in_period : ℚ := (lmi.mngo_left : ℚ) / lmi.rate
  let (pa, lmi, points) :=
    if points ≥ points_in_period then
      let pa := { pa with mngo_accrued := pa.mngo_accrued + lmi.mngo_left }
      let points := points - points_in_period
      let rate_adj : ℚ :=
        max MIN_RATE_ADJ
          (min MAX_RATE_ADJ
            (((time_final - lmi.period_start : ℕ) : ℚ) / (lmi.target_period_length : ℚ)))
      let lmi := { lmi with
        rate := lmi.rate * rate_adj
        period_start := time_final
        mngo_left := lmi.mngo_per_period }
      (pa, lmi, points)
    else (pa, lmi, points)
  let mngo_earned : ℕ := min (Int.toNat ⌊points * lmi.rate⌋) lmi.mngo_per_period
  ({ pa with mngo_accrued := pa.mngo_accrued + mngo_earned },
   { lmi with mngo_left := lmi.mngo_left - mngo_earned })

/-- `PerpMarket` from `types.rs` — the fields read by the modelled operations. -/
structure PerpMarket where
  quote_lot_size : ℤ
  base_lot_size : ℤ
  long_funding : ℚ
  short_funding : ℚ
  open_interest : ℤ
  liquidity_mining_info : LiquidityMiningInfo
deriving DecidableEq, Repr

/-- `PerpMarket::socialize_loss` from `types.rs`: zero the account's quote
position and spread it over open interest by shifting the long/short funding
accumulators, mirroring them into the perp-market cache.  Returns the
per-contract socialized loss together with the updated market, account and
cache. -/
def PerpMarket.socialize_loss (pm : PerpMarket) (account : PerpAccount)
    (cache : PerpMarketCache) : ℚ × PerpMarket × PerpAccount × PerpMarketCache :=
  let socialized_loss : ℚ :=
    if pm.open_interest = 0 then 0
    else account.quote_position / (pm.open_interest : ℚ)
  let account' := { account with quote_position := 0 }
  let pm' := { pm with
    long_funding := pm.long_funding - socialized_loss
    short_funding := pm.short_funding + socialized_loss }
  let cache' := { cache with
    short_funding := pm'.short_funding
    long_funding := pm'.long_funding }
  (socialized_loss, pm', account', cache')

/-- `UserActiveAssets` from `types.rs`: which spot/perp slots are
economically relevant. -/
structure UserActiveAssets where
  spot : ℕ → Bool
  perps : ℕ → Bool

/-- `UserActiveAssets::new` from `types.rs` (without the caller-supplied
`extra` overrides, which the claims do not exercise): a spot slot is active
when its market is configured and the account touches it; a perp slot when
its market is configured and the perp position is active.  Emptiness of a
market slot is `is_empty()`, i.e. its key equals the default key `0`. -/
def UserActiveAssets.new (g : MangoGroup) (ma : MangoAccount) : UserActiveAssets where
  spot := fun i =>
    decide (i < g.num_oracles) &&
      (!decide ((g.spot_markets i).spot_market = 0) &&
        (ma.in_margin_basket i || !decide (ma.deposits i = 0) || !decide (ma.borrows i = 0)))
  perps := fun i =>
    decide (i < g.num_oracles) &&
      (!decide ((g.perp_markets i).perp_market = 0) && (ma.perp_accounts i).is_active)

/-- `NUM_HEALTHS` from `types.rs`. -/
def NUM_HEALTHS : ℕ := 3

/-- `HealthCache` from `types.rs`: per-market unweighted `(base, quote)`
values, the quote balance, and one optional cached health per regime. -/
structure HealthCache where
  active_assets : UserActiveAssets
  spot : ℕ → ℚ × ℚ
  perp : ℕ → ℚ × ℚ
  quote : ℚ
  health : HealthType → Option ℚ

/-- `HealthCache::new` from `types.rs`: zero values, no cached healths. -/
def HealthCache.new (active_assets : UserActiveAssets) : HealthCache where
  active_assets := active_assets
  spot := fun _ => (0, 0)
  perp := fun _ => (0, 0)
  quote := 0
  health := fun _ => none

/-- The spot asset/liability weight pair a regime selects in
`HealthCache::get_health`. -/
def spot_weights (smi : SpotMarketInfo) : HealthType → ℚ × ℚ
  | HealthType.Maint => (smi.maint_asset_weight, smi.maint_liab_weight)
  | HealthType.Init => (smi.init_asset_weight, smi.init_liab_weight)
  | HealthType.Equity => (1, 1)

/-- The perp asset/liability weight pair a regime selects in
`HealthCache::get_health`, `get_health_after_sim_perp` and
`update_perp_val`. -/
def perp_weights (pmi : PerpMarketInfo) : HealthType → ℚ × ℚ
  | HealthType.Maint => (pmi.maint_asset_weight, pmi.maint_liab_weight)
  | HealthType.Init => (pmi.init_asset_weight, pmi.init_liab_weight)
  | HealthType.Equity => (1, 1)

/-- The weighted health contribution of one unweighted `(base, quote)` value:
`base × asset_weight + quote` for non-negative base, `base × liability_weight
+ quote` otherwise (`is_negative()` in the source). -/
def weighted_val (aw lw : ℚ) (v : ℚ × ℚ) : ℚ :=
  if v.1 < 0 then v.1 * lw + v.2 else v.1 * aw + v.2

/-- The per-slot summand of the `get_health` loop body: the weighted spot
contribution when the spot slot is active plus the weighted perp contribution
when the perp slot is active. -/
def health_slot_contrib (g : MangoGroup) (active : UserActiveAssets)
    (spot perp : ℕ → ℚ × ℚ) (ht : HealthType) (i : ℕ) : ℚ :=
  (if active.spot i then
    weighted_val (spot_weights (g.spot_markets i) ht).1
      (spot_weights (g.spot_markets i) ht).2 (spot i)
  else 0) +
  (if active.perps i then
    weighted_val (perp_weights (g.perp_markets i) ht).1
      (perp_weights (g.perp_markets i) ht).2 (perp i)
  else 0)

/-- `HealthCache::get_health` from `types.rs`: return the cached health for
the regime if present, else fold the weighted contributions of the active
slots `0..num_oracles` onto the quote balance, cache the result and return
it.  Returns the health together with the (possibly) updated cache. -/
def HealthCache.get_health (hc : HealthCache) (g : MangoGroup)
    (health_type : HealthType) : ℚ × HealthCache :=
  match hc.health health_type with
  | some h => (h, hc)
  | none =>
    let h : ℚ := (List.range g.num_oracles).foldl
      (fun acc i => acc + health_slot_contrib g hc.active_assets hc.spot hc.perp health_type i)
      hc.quote
    (h, { hc with health := fun t => if t = health_type then some h else hc.health t })

/-- `HealthCache::update_quote` from `types.rs`: recompute the quote balance
from the account and apply the delta to every populated regime cache. -/
def HealthCache.update_quote (hc : HealthCache) (mango_cache : MangoCache)
    (mango_account : MangoAccount) : HealthCache :=
  let quote := mango_account.get_net (mango_cache.root_bank_cache QUOTE_INDEX) QUOTE_INDEX
  { hc with
    health := fun t => (hc.health t).map (fun h => h + quote - hc.quote)
    quote := quote }

/-- `HealthCache::update_perp_val` from `types.rs`: recompute the unweighted
perp value of one market from the account and cache, apply the weighted delta
to every populated regime cache, and store the new value as the baseline. -/
def HealthCache.update_perp_val (hc : HealthCache) (g : MangoGroup)
    (mango_cache : MangoCache) (mango_account : MangoAccount)
    (market_index : ℕ) : HealthCache :=
  let v := (mango_account.perp_accounts market_index).get_val
    (g.perp_markets market_index)
    (mango_cache.perp_market_cache market_index)
    (mango_cache.price_cache market_index).price
  let prev := hc.perp market_index
  { hc with
    health := fun t =>
      (hc.health t).map (fun h =>
        let w := perp_weights (g.perp_markets market_index) t
        h + weighted_val w.1 w.2 v - weighted_val w.1 w.2 prev)
    perp := fun j => if j = market_index then v else hc.perp j }

/-- `HealthCache::get_health_after_sim_perp` from `types.rs`: project the
cached health of the regime after simulated changes to one perp market's
taker/resting exposure, minus the estimated taker fee (with referral
surcharge when the MNGO deposit is below the required threshold).  The source
reads the cached health with `.unwrap()`; the panic on an empty cache is
modelled as `none`.  `mngo_id` stands for the constant `mngo_token::id()`
that the source reads from its `ids` module. -/
def HealthCache.get_health_after_sim_perp (hc : HealthCache) (mngo_id : Pubkey)
    (g : MangoGroup) (mango_cache : MangoCache) (mango_account : MangoAccount)
    (market_index : ℕ) (health_type : HealthType)
    (taker_base taker_quote bids_quantity asks_quantity : ℤ) : Option ℚ :=
  let info := g.perp_markets market_index
  let v := (mango_account.perp_accounts market_index).sim_get_val
    info (mango_cache.perp_market_cache market_index)
    (mango_cache.price_cache market_index).price
    taker_base taker_quote bids_quantity asks_quantity
  let prev := hc.perp market_index
  let w := perp_weights (g.perp_markets market_index) health_type
  let prev_perp_health := weighted_val w.1 w.2 prev
  let curr_perp_health := weighted_val w.1 w.2 v
  match hc.health health_type with
  | none => none
  | some h =>
    let taker_fees : ℚ :=
      if taker_quote ≠ 0 then
        let taker_quote_native : ℚ := ((info.quote_lot_size * |taker_quote| : ℤ) : ℚ)
        let market_fees : ℚ := info.taker_fee * taker_quote_native
        match g.find_token_index mngo_id with
        | some mngo_index =>
          let mngo_cache := mango_cache.root_bank_cache mngo_index
          let mngo_deposits := mango_account.get_native_deposit mngo_cache mngo_index
          if mngo_deposits < (g.ref_mngo_required : ℚ) then
            market_fees + ((g.ref_surcharge_centibps : ℚ) / CENTIBPS_PER_UNIT) * taker_quote_native
          else market_fees
        | none => market_fees
      else 0
    some (h + curr_perp_health - prev_perp_health - taker_fees)

/-- The health a full recomputation from scratch produces over the current
stored values of a `HealthCache`: the quote balance plus every active slot's
weighted contribution (the `None` branch of `HealthCache::get_health`, written
as a `Finset` sum). -/
def health_from_scratch (g : MangoGroup) (hc : HealthCache) (ht : HealthType) : ℚ :=
  hc.quote + ∑ i in Finset.range g.num_oracles,
    health_slot_contrib g hc.active_assets hc.spot hc.perp ht i

/-- One incremental update of a `HealthCache`: a `HealthCache::update_quote`
call or a `HealthCache::update_perp_val` call, with the cache/account
snapshot it is given. -/
inductive HCUpdate where
  | updateQuote (mc : MangoCache) (ma : MangoAccount)
  | updatePerpVal (mc : MangoCache) (ma : MangoAccount) (market_index : ℕ)

/-- Apply one incremental update to a `HealthCache`. -/
def HealthCache.apply_update (hc : HealthCache) (g : MangoGroup) :
    HCUpdate → HealthCache
  | HCUpdate.updateQuote mc ma => hc.update_quote mc ma
  | HCUpdate.updatePerpVal mc ma i => hc.update_perp_val g mc ma i

/-- Apply a sequence of incremental updates to a `HealthCache`, oldest
first. -/
def HealthCache.apply_updates (hc : HealthCache) (g : MangoGroup)
    (us : List HCUpdate) : HealthCache :=
  us.foldl (fun h u => h.apply_update g u) hc

/-- An update targets an active slot: `update_quote` always does (the quote
balance always participates in health), `update_perp_val` when its market
index is an active perp slot of one of the group's configured markets. -/
def HCUpdate.targets_active (g : MangoGroup) (act : UserActiveAssets) :
    HCUpdate → Prop
  | HCUpdate.updateQuote _ _ => True
  | HCUpdate.updatePerpVal _ _ i => act.perps i = true ∧ i < g.num_oracles

/-! ### Concrete fixtures for witnesses and counterexamples -/

/-- An all-zero perp position. -/
def paZero : PerpAccount :=
  { base_position := 0, quote_position := 0, long_settled_funding := 0
    short_settled_funding := 0, bids_quantity := 0, asks_quantity := 0
    taker_base := 0, taker_quote := 0, mngo_accrued := 0 }

/-- Perp position with a tie between the bid and ask net-base scenarios:
`curr = -5`, all bids filling gives net base `5`, all asks filling gives
net base `-5`. -/
def paTie : PerpAccount :=
  { paZero with base_position := -5, bids_quantity := 10 }

/-- Perp position holding one long contract and nothing else. -/
def paOneLong : PerpAccount := { paZero with base_position := 1 }

/-- A configured perp market slot with unit lot sizes. -/
def pmiUnit : PerpMarketInfo :=
  { perp_market := 1, maint_asset_weight := 9/10, init_asset_weight := 4/5
    maint_liab_weight := 11/10, init_liab_weight := 6/5, liquidation_fee := 0
    maker_fee := 0, taker_fee := 1/100, base_lot_size := 1, quote_lot_size := 1 }

/-- A perp-market cache with zero funding. -/
def pmcZero : PerpMarketCache :=
  { long_funding := 0, short_funding := 0, last_update := 0 }

/-- A configured spot market slot. -/
def smiW : SpotMarketInfo :=
  { spot_market := 2, maint_asset_weight := 9/10, init_asset_weight := 4/5
    maint_liab_weight := 11/10, init_liab_weight := 6/5, liquidation_fee := 0 }

/-- A one-market group; token slot 0 has mint key `3`. -/
def gW : MangoGroup :=
  { num_oracles := 1
    tokens := fun i => if i = 0 then
        { mint := 3, root_bank := 4, decimals := 6 }
      else { mint := 0, root_bank := 0, decimals := 0 }
    spot_markets := fun _ => smiW
    perp_markets := fun _ => pmiUnit
    ref_surcharge_centibps := 100
    ref_share_centibps := 80
    ref_mngo_required := 10000 }

/-- Active set marking slot 0 active on both sides. -/
def activeW : UserActiveAssets :=
  { spot := fun i => decide (i = 0), perps := fun i => decide (i = 0) }

/-- Active set with no active slots. -/
def activeNone : UserActiveAssets :=
  { spot := fun _ => false, perps := fun _ => false }

/-- A cache snapshot with unit prices and indices and zero funding. -/
def mcW : MangoCache :=
  { price_cache := fun _ => { price := 1, last_update := 0 }
    root_bank_cache := fun _ => { deposit_index := 1, borrow_index := 1, last_update := 0 }
    perp_market_cache := fun _ => pmcZero }

/-- An account holding one long contract on perp market 0, a small MNGO
deposit on token 0, and a quote deposit on the quote slot. -/
def maW : MangoAccount :=
  { in_margin_basket := fun _ => false
    deposits := fun i => if i = 0 then 5 else if i = QUOTE_INDEX then 7 else 0
    borrows := fun _ => 0
    perp_accounts := fun i => if i = 0 then paOneLong else paZero }

/-- A populated health cache over `activeW` with stored spot value `(10, 1)`,
perp value `(-4, 2)` and quote balance `7`, no regime cached yet. -/
def hcW : HealthCache :=
  { active_assets := activeW
    spot := fun _ => (10, 1)
    perp := fun _ => (-4, 2)
    quote := 7
    health := fun _ => none }

/-- `hcW` with a health of `10` cached for the maintenance regime. -/
def hcWM : HealthCache :=
  { hcW with health := fun t => if t = HealthType.Maint then some 10 else none }

/-- Bank fixture: `deposit_index = 1 ≠ borrow_index = 2`, two-slope curve
parameters giving rate `1/10` at utilization `1/2`. -/
def bankW : RootBank :=
  { optimal_util := 1/2, optimal_rate := 1/10, max_rate := 1
    num_node_banks := 1, node_banks := fun _ => { deposits := 100, borrows := 25 }
    deposit_index := 1, borrow_index := 2, last_updated := 0 }

/-- The node bank of `bankW`: deposit shares `100`, borrow shares `25`
(native borrows `50` at borrow index `2`, so utilization `1/2`). -/
def nbW : NodeBank := { deposits := 100, borrows := 25 }

/-- Bank fixture for loss socialization: one node bank with `100` deposit
shares, both indices `1`. -/
def bank6 : RootBank :=
  { optimal_util := 1/2, optimal_rate := 1/10, max_rate := 1
    num_node_banks := 1, node_banks := fun _ => { deposits := 100, borrows := 50 }
    deposit_index := 1, borrow_index := 1, last_updated := 0 }

/-- A bankrupt account borrowing `50` shares of token 0. -/
def ma6 : MangoAccount :=
  { in_margin_basket := fun _ => false
    deposits := fun _ => 0
    borrows := fun i => if i = 0 then 50 else 0
    perp_accounts := fun _ => paZero }

/-- Liquidity-mining fixture: rate `2`, budget `100` of `1000` per period,
target period length `100` seconds starting at `0`. -/
def lmiW : LiquidityMiningInfo :=
  { rate := 2, max_depth_bps := 0, period_start := 0
    target_period_length := 100, mngo_left := 100, mngo_per_period := 1000 }

/-- Perp market fixture with open interest `10`. -/
def pmW : PerpMarket :=
  { quote_lot_size := 1, base_lot_size := 1, long_funding := 3, short_funding := 5
    open_interest := 10, liquidity_mining_info := lmiW }

/-- Perp position with quote position `-20` to be socialized. -/
def paLoss : PerpAccount := { paZero with quote_position := -20 }

/-! ## Theorems -/

/-- Folding additions of `f` over `List.range n` starting from `c` is `c`
plus the sum of `f` over `Finset.range n`. -/
theorem foldl_add_eq_sum (f : ℕ → ℚ) (c : ℚ) (n : ℕ) :
    (List.range n).foldl (fun acc i => acc + f i) c =
      c + ∑ i in Finset.range n, f i := by
  induction n with
  | zero => simp
  | succ n ih =>
    rw [List.range_succ, List.foldl_append, ih, Finset.sum_range_succ]
    simp [add_assoc]

/-- C1. `get_val` computes `curr = base_position + taker_base`,
`bids_base_net = curr + bids_quantity`, `asks_base_net = curr -
asks_quantity`, and selects the scenario whose absolute net base is strictly
larger — ties favoring the **ask** scenario (amended from the claim, which
said ties favor the bid scenario): `base_value = chosen_net_base ×
base_lot_size × price`, `quote_value` = funding-adjusted quote position +
`taker_quote × quote_lot_size`, minus `bids_quantity × base_lot_size × price`
in the bid scenario and plus `asks_quantity × base_lot_size × price` in the
ask scenario. -/
theorem get_val_worst_case_valuation (pa : PerpAccount) (pmi : PerpMarketInfo)
    (pmc : PerpMarketCache) (price : ℚ) :
    pa.get_val pmi pmc price =
      if |pa.base_position + pa.taker_base + pa.bids_quantity| >
          |pa.base_position + pa.taker_base - pa.asks_quantity| then
        (((pa.base_position + pa.taker_base + pa.bids_quantity : ℤ) : ℚ) *
            (pmi.base_lot_size : ℚ) * price,
          pa.get_quote_position pmc + (pa.taker_quote : ℚ) * (pmi.quote_lot_size : ℚ)
            - (pa.bids_quantity : ℚ) * (pmi.base_lot_size : ℚ) * price)
      else
        (((pa.base_position + pa.taker_base - pa.asks_quantity : ℤ) : ℚ) *
            (pmi.base_lot_size : ℚ) * price,
          pa.get_quote_position pmc + (pa.taker_quote : ℚ) * (pmi.quote_lot_size : ℚ)
            + (pa.asks_quantity : ℚ) * (pmi.base_lot_size : ℚ) * price) := by
  unfold PerpAccount.get_val
  split_ifs with hcmp
  · rw [if_pos hcmp]
    simp only [Prod.mk.injEq]
    constructor
    · push_cast; ring
    · push_cast; ring
  · rw [if_neg hcmp]
    simp only [Prod.mk.injEq]
    constructor
    · push_cast; ring
    · push_cast; ring

/-- C1 counterexample to the claim as stated.  At a tie between the two
scenarios (`paTie`: net base `5` if all bids fill, `-5` if all asks fill, at
unit lots and price `1`) the code takes the **ask** branch and returns
`(-5, 0)`, whereas the claim's bid-favoring tie rule would give base value
`5 × 1 × 1 = 5` and quote value `0 - 10 × 1 × 1 = -10`. -/
theorem get_val_tie_counterexample :
    paTie.get_val pmiUnit pmcZero 1 = (-5, 0) ∧
      ((-5 : ℚ), (0 : ℚ)) ≠ ((5 : ℚ), (-10 : ℚ)) := by
  constructor
  · unfold paTie paZero pmiUnit pmcZero PerpAccount.get_val PerpAccount.get_quote_position
    norm_num
  · simp only [ne_eq, Prod.mk.injEq, not_and]
    intro h
    norm_num at h

/-- `get_health` on an empty regime cache returns the from-scratch health and
stores it for that regime. -/
theorem get_health_none (hc : HealthCache) (g : MangoGroup) (ht : HealthType)
    (h : hc.health ht = none) :
    hc.get_health g ht =
      (health_from_scratch g hc ht,
        { hc with health := fun t =>
            if t = ht then some (health_from_scratch g hc ht) else hc.health t }) := by
  unfold HealthCache.get_health health_from_scratch
  rw [h, foldl_add_eq_sum]

/-- `get_health` on a populated regime cache returns the cached value and
leaves the cache untouched. -/
theorem get_health_some (hc : HealthCache) (g : MangoGroup) (ht : HealthType)
    (x : ℚ) (h : hc.health ht = some x) :
    hc.get_health g ht = (x, hc) := by
  unfold HealthCache.get_health
  rw [h]

/-- The health value `get_health` returns on an empty regime cache. -/
theorem get_health_fst_of_none (hc : HealthCache) (g : MangoGroup)
    (ht : HealthType) (h : hc.health ht = none) :
    (hc.get_health g ht).1 = health_from_scratch g hc ht := by
  rw [get_health_none hc g ht h]

/-- `weighted_val` phrased by the sign test of the claim (`base ≥ 0` picks the
asset weight). -/
theorem weighted_val_ge (aw lw : ℚ) (v : ℚ × ℚ) :
    weighted_val aw lw v = if 0 ≤ v.1 then v.1 * aw + v.2 else v.1 * lw + v.2 := by
  unfold weighted_val
  rcases lt_or_le v.1 0 with h|h
  · rw [if_pos h, if_neg h.not_le]
  · rw [if_neg (not_lt.mpr h), if_pos h]

/-- C2. On an empty regime cache, `get_health` returns the quote balance
plus, for every active spot and perp slot of the group, `base × asset_weight
+ quote` if `base ≥ 0` and `base × liability_weight + quote` otherwise, with
the maintenance weights for `Maint`, the initialization weights for `Init`
and weight `1` uniformly for `Equity`; and the result is cached, so a second
`get_health` call with the same regime returns the same value. -/
theorem get_health_empty_cache_formula (hc : HealthCache) (g : MangoGroup)
    (ht : HealthType) (hnone : hc.health ht = none) :
    (hc.get_health g ht).1 =
      hc.quote + ∑ i in Finset.range g.num_oracles,
        ((if hc.active_assets.spot i then
            (if 0 ≤ (hc.spot i).1 then
              (hc.spot i).1 *
                (match ht with
                  | HealthType.Maint => (g.spot_markets i).maint_asset_weight
                  | HealthType.Init => (g.spot_markets i).init_asset_weight
                  | HealthType.Equity => 1) + (hc.spot i).2
            else
              (hc.spot i).1 *
                (match ht with
                  | HealthType.Maint => (g.spot_markets i).maint_liab_weight
                  | HealthType.Init => (g.spot_markets i).init_liab_weight
                  | HealthType.Equity => 1) + (hc.spot i).2)
          else 0) +
        (if hc.active_assets.perps i then
            (if 0 ≤ (hc.perp i).1 then
              (hc.perp i).1 *
                (match ht with
                  | HealthType.Maint => (g.perp_markets i).maint_asset_weight
                  | HealthType.Init => (g.perp_markets i).init_asset_weight
                  | HealthType.Equity => 1) + (hc.perp i).2
            else
              (hc.perp i).1 *
                (match ht with
                  | HealthType.Maint => (g.perp_markets i).maint_liab_weight
                  | HealthType.Init => (g.perp_markets i).init_liab_weight
                  | HealthType.Equity => 1) + (hc.perp i).2)
          else 0)) ∧
    ((hc.get_health g ht).2.get_health g ht).1 = (hc.get_health g ht).1 := by
  rw [get_health_none hc g ht hnone]
  constructor
  · show health_from_scratch g hc ht = _
    unfold health_from_scratch
    congr 1
    refine Finset.sum_congr rfl (fun i _ => ?_)
    unfold health_slot_contrib
    rw [weighted_val_ge, weighted_val_ge]
    cases ht <;> rfl
  · rw [get_health_some _ g ht (health_from_scratch g hc ht) (by simp)]

/-- C2 witness: on the concrete populated cache `hcW` over the one-market
group `gW`, the maintenance health computed from an empty cache is
`7 + (10 × 0.9 + 1) + (-4 × 1.1 + 2) = 73/5`. -/
theorem get_health_empty_cache_formula_witness :
    (hcW.get_health gW HealthType.Maint).1 = 73/5 := by
  have h := get_health_empty_cache_formula hcW gW HealthType.Maint rfl
  rw [h.1]
  norm_num [hcW, gW, activeW, smiW, pmiUnit, Finset.sum_range_succ]

/-- Characterization of `RootBank.update_index` in terms of the utilization
`u`, interest rate `r` and elapsed time `dt` it computes. -/
theorem update_index_eq (bank : RootBank) (nbs : List NodeBank) (now_ts : ℕ)
    (u r dt : ℚ)
    (hdt : dt = ((now_ts - bank.last_updated : ℕ) : ℚ))
    (hu : u = nbs.foldl (fun acc nb => acc + nb.borrows * bank.borrow_index) 0 /
        nbs.foldl (fun acc nb => acc + nb.deposits * bank.deposit_index) 0)
    (hr : r = compute_interest_rate bank u) :
    bank.update_index nbs now_ts =
      if r * dt ≤ 0 ∨ r * dt * u ≤ 0 then { bank with last_updated := now_ts }
      else
        { bank with
          last_updated := now_ts
          borrow_index := bank.borrow_index * (r * dt) / YEAR + bank.borrow_index
          deposit_index := bank.deposit_index * (r * dt * u) / YEAR + bank.deposit_index } := by
  subst hr
  subst hu
  subst hdt
  rfl

/-- C4 (amended).  With `now_ts ≥ last_updated`, utilization `u`, borrow rate
`r` and elapsed seconds `dt`, when both computed interest deltas are positive
`update_index` increases `borrow_index` by `borrow_index × r × dt / YEAR` and
increases `deposit_index` by `deposit_index × r × dt × u / YEAR` (amended
from the claim, which scaled the deposit delta off the **borrow** index:
`borrow_index × r × dt / YEAR × u`), and advances `last_updated`. -/
theorem update_index_accrual (bank : RootBank) (nbs : List NodeBank) (now_ts : ℕ)
    (u r dt : ℚ)
    (hdt : dt = ((now_ts - bank.last_updated : ℕ) : ℚ))
    (hu : u = nbs.foldl (fun acc nb => acc + nb.borrows * bank.borrow_index) 0 /
        nbs.foldl (fun acc nb => acc + nb.deposits * bank.deposit_index) 0)
    (hr : r = compute_interest_rate bank u)
    (hts : bank.last_updated ≤ now_ts)
    (hb : 0 < r * dt) (hd : 0 < r * dt * u) :
    (bank.update_index nbs now_ts).borrow_index =
      bank.borrow_index + bank.borrow_index * (r * dt) / YEAR ∧
    (bank.update_index nbs now_ts).deposit_index =
      bank.deposit_index + bank.deposit_index * (r * dt * u) / YEAR ∧
    (bank.update_index nbs now_ts).last_updated = now_ts := by
  rw [update_index_eq bank nbs now_ts u r dt hdt hu hr,
    if_neg (by push_neg; exact ⟨hb, hd⟩)]
  refine ⟨by ring, by ring, rfl⟩

/-- C4 witness: the concrete bank `bankW` (indices `1` and `2`, utilization
`1/2`, curve rate `1/10`) accrued over one year. -/
theorem update_index_accrual_witness :
    (bankW.update_index [nbW] 31536000).borrow_index =
      bankW.borrow_index + bankW.borrow_index * ((1/10) * 31536000) / YEAR ∧
    (bankW.update_index [nbW] 31536000).deposit_index =
      bankW.deposit_index + bankW.deposit_index * ((1/10) * 31536000 * (1/2)) / YEAR ∧
    (bankW.update_index [nbW] 31536000).last_updated = 31536000 :=
  update_index_accrual bankW [nbW] 31536000 (1/2) (1/10) 31536000
    (by norm_num [bankW])
    (by norm_num [bankW, nbW])
    (by norm_num [compute_interest_rate, bankW])
    (by norm_num [bankW])
    (by norm_num)
    (by norm_num)

/-- C4 counterexample to the claim as stated.  On `bankW` (`deposit_index =
1`, `borrow_index = 2`, utilization `1/2`, rate `1/10`, `Δt` one year) the
borrow index grows by `2 × 0.1 = 1/5` to `11/5`, and the claim would predict
`deposit_index` to grow by that borrow-index delta times utilization, i.e. to
`1 + (11/5 - 2) × (1/2) = 11/10`; the code instead produces `21/20`. -/
theorem update_index_deposit_delta_counterexample :
    (bankW.update_index [nbW] 31536000).borrow_index = 11/5 ∧
    (bankW.update_index [nbW] 31536000).deposit_index = 21/20 ∧
    ¬((21 : ℚ)/20 = 1 + (11/5 - 2) * (1/2)) := by
  refine ⟨?_, ?_, by norm_num⟩ <;>
    · unfold RootBank.update_index compute_interest_rate YEAR bankW nbW
      norm_num

/-- C5. `update_index` never decreases either index (on the data model's
non-negative indices): when either computed interest delta is non-positive it
leaves both indices unchanged while still advancing `last_updated` to
`now_ts`, and calling it twice with the same `now_ts` is a no-op the second
time (`Δt = 0`). -/
theorem update_index_monotone_noop (bank : RootBank) (nbs : List NodeBank)
    (now_ts : ℕ) (u r dt : ℚ)
    (hdt : dt = ((now_ts - bank.last_updated : ℕ) : ℚ))
    (hu : u = nbs.foldl (fun acc nb => acc + nb.borrows * bank.borrow_index) 0 /
        nbs.foldl (fun acc nb => acc + nb.deposits * bank.deposit_index) 0)
    (hr : r = compute_interest_rate bank u)
    (hts : bank.last_updated ≤ now_ts)
    (hdi : 0 ≤ bank.deposit_index) (hbi : 0 ≤ bank.borrow_index) :
    bank.deposit_index ≤ (bank.update_index nbs now_ts).deposit_index ∧
    bank.borrow_index ≤ (bank.update_index nbs now_ts).borrow_index ∧
    (bank.update_index nbs now_ts).last_updated = now_ts ∧
    (r * dt ≤ 0 ∨ r * dt * u ≤ 0 →
      (bank.update_index nbs now_ts).deposit_index = bank.deposit_index ∧
      (bank.update_index nbs now_ts).borrow_index = bank.borrow_index) ∧
    ((bank.update_index nbs now_ts).update_index nbs now_ts).deposit_index =
      (bank.update_index nbs now_ts).deposit_index ∧
    ((bank.update_index nbs now_ts).update_index nbs now_ts).borrow_index =
      (bank.update_index nbs now_ts).borrow_index := by
  have hsecond : ∀ b : RootBank, b.last_updated = now_ts →
      b.update_index nbs now_ts = { b with last_updated := now_ts } := by
    intro b hb
    rw [update_index_eq b nbs now_ts
      (nbs.foldl (fun acc nb => acc + nb.borrows * b.borrow_index) 0 /
        nbs.foldl (fun acc nb => acc + nb.deposits * b.deposit_index) 0)
      (compute_interest_rate b
        (nbs.foldl (fun acc nb => acc + nb.borrows * b.borrow_index) 0 /
          nbs.foldl (fun acc nb => acc + nb.deposits * b.deposit_index) 0))
      0 (by rw [hb]; simp) rfl rfl]
    rw [if_pos (Or.inl (by rw [mul_zero]))]
  rw [update_index_eq bank nbs now_ts u r dt hdt hu hr]
  split_ifs with h
  · refine ⟨le_refl _, le_refl _, rfl, fun _ => ⟨rfl, rfl⟩, ?_, ?_⟩ <;>
      rw [hsecond _ rfl]
  · push_neg at h
    have hYEAR : (0:ℚ) < YEAR := by norm_num [YEAR]
    have h1 : 0 ≤ bank.deposit_index * (r * dt * u) / YEAR :=
      div_nonneg (mul_nonneg hdi h.2.le) hYEAR.le
    have h2 : 0 ≤ bank.borrow_index * (r * dt) / YEAR :=
      div_nonneg (mul_nonneg hbi h.1.le) hYEAR.le
    refine ⟨by simp only []; linarith, by simp only []; linarith, rfl,
      fun hc => absurd hc (by push_neg; exact h), ?_, ?_⟩ <;>
      rw [hsecond _ rfl]

/-- C5 witness: `bankW` accrued over one year satisfies the monotonicity and
second-call no-op properties. -/
theorem update_index_monotone_noop_witness :
    bankW.deposit_index ≤ (bankW.update_index [nbW] 31536000).deposit_index ∧
    bankW.borrow_index ≤ (bankW.update_index [nbW] 31536000).borrow_index ∧
    (bankW.update_index [nbW] 31536000).last_updated = 31536000 ∧
    ((1/10 : ℚ) * 31536000 ≤ 0 ∨ (1/10 : ℚ) * 31536000 * (1/2) ≤ 0 →
      (bankW.update_index [nbW] 31536000).deposit_index = bankW.deposit_index ∧
      (bankW.update_index [nbW] 31536000).borrow_index = bankW.borrow_index) ∧
    ((bankW.update_index [nbW] 31536000).update_index [nbW] 31536000).deposit_index =
      (bankW.update_index [nbW] 31536000).deposit_index ∧
    ((bankW.update_index [nbW] 31536000).update_index [nbW] 31536000).borrow_index =
      (bankW.update_index [nbW] 31536000).borrow_index :=
  update_index_monotone_noop bankW [nbW] 31536000 (1/2) (1/10) 31536000
    (by norm_num [bankW])
    (by norm_num [bankW, nbW])
    (by norm_num [compute_interest_rate, bankW])
    (by norm_num [bankW])
    (by norm_num [bankW])
    (by norm_num [bankW])

/-- C6. For a bankrupt account with a positive borrow on the token and a
positive deposit pool, `RootBank::socialize_loss` returns `native_loss =
borrows[token] × borrow_index` and `percentage_loss = native_loss / (Σ
node-bank deposit shares × deposit_index)`, and strictly decreases
`deposit_index` by exactly `deposit_index × percentage_loss`;
`percentage_loss ∈ [0, 1]` whenever the loss is at most total native
deposits. -/
theorem socialize_loss_bank_spec (bank : RootBank) (token_index : ℕ)
    (mc : MangoCache) (ba : MangoAccount) (S nd nl : ℚ)
    (hS : S = (List.range bank.num_node_banks).foldl
        (fun acc i => acc + (bank.node_banks i).deposits) 0)
    (hnd : nd = S * bank.deposit_index)
    (hnl : nl = ba.borrows token_index * bank.borrow_index)
    (hSpos : 0 < S) (hdi : 0 < bank.deposit_index)
    (hlpos : 0 < nl) :
    ∃ p : (ℚ × ℚ) × RootBank × MangoCache,
      bank.socialize_loss token_index mc ba = some p ∧
      p.1 = (nl, nl / nd) ∧
      p.2.1.deposit_index = bank.deposit_index - (nl / nd) * bank.deposit_index ∧
      p.2.1.deposit_index < bank.deposit_index ∧
      0 ≤ nl / nd ∧ (nl ≤ nd → nl / nd ≤ 1) := by
  subst hnl
  subst hnd
  subst hS
  have hndpos : (0:ℚ) <
      (List.range bank.num_node_banks).foldl
        (fun acc i => acc + (bank.node_banks i).deposits) 0 * bank.deposit_index :=
    mul_pos hSpos hdi
  simp only [RootBank.socialize_loss, if_neg (ne_of_gt hndpos)]
  refine ⟨_, rfl, rfl, rfl, ?_, ?_, ?_⟩
  · have hpct : 0 < ba.borrows token_index * bank.borrow_index /
        ((List.range bank.num_node_banks).foldl
          (fun acc i => acc + (bank.node_banks i).deposits) 0 * bank.deposit_index) :=
      div_pos hlpos hndpos
    have := mul_pos hpct hdi
    linarith
  · exact (div_pos hlpos hndpos).le
  · intro hle
    exact (div_le_one hndpos).mpr hle

/-- C6 witness: one node bank with `100` deposit shares at index `1`, a
bankrupt borrow of `50` shares at borrow index `1`: loss `50`, percentage
`1/2`, deposit index halves. -/
theorem socialize_loss_bank_spec_witness :
    ∃ p : (ℚ × ℚ) × RootBank × MangoCache,
      bank6.socialize_loss 0 mcW ma6 = some p ∧
      p.1 = (50, 50 / 100) ∧
      p.2.1.deposit_index = bank6.deposit_index - (50 / 100) * bank6.deposit_index ∧
      p.2.1.deposit_index < bank6.deposit_index ∧
      0 ≤ (50:ℚ) / 100 ∧ ((50:ℚ) ≤ 100 → (50:ℚ) / 100 ≤ 1) :=
  socialize_loss_bank_spec bank6 0 mcW ma6 100 100 50
    (by norm_num [bank6, List.range_succ])
    (by norm_num [bank6])
    (by norm_num [ma6, bank6])
    (by norm_num)
    (by norm_num [bank6])
    (by norm_num)

/-- C7. `PerpMarket::socialize_loss` always zeroes the account's quote
position; the per-contract loss is `0` when open interest is zero (leaving
the funding accumulators unchanged) and `quote_position / open_interest`
otherwise; the loss is subtracted from `long_funding`, added to
`short_funding`, and both updated accumulators are copied into the
perp-market cache. -/
theorem socialize_loss_market_spec (pm : PerpMarket) (account : PerpAccount)
    (cache : PerpMarketCache) :
    (pm.socialize_loss account cache).2.2.1.quote_position = 0 ∧
    (pm.socialize_loss account cache).2.1.long_funding =
      pm.long_funding - (pm.socialize_loss account cache).1 ∧
    (pm.socialize_loss account cache).2.1.short_funding =
      pm.short_funding + (pm.socialize_loss account cache).1 ∧
    (pm.socialize_loss account cache).2.2.2.long_funding =
      (pm.socialize_loss account cache).2.1.long_funding ∧
    (pm.socialize_loss account cache).2.2.2.short_funding =
      (pm.socialize_loss account cache).2.1.short_funding ∧
    (pm.open_interest = 0 →
      (pm.socialize_loss account cache).1 = 0 ∧
      (pm.socialize_loss account cache).2.1.long_funding = pm.long_funding ∧
      (pm.socialize_loss account cache).2.1.short_funding = pm.short_funding) ∧
    (pm.open_interest ≠ 0 →
      (pm.socialize_loss account cache).1 =
        account.quote_position / (pm.open_interest : ℚ)) := by
  unfold PerpMarket.socialize_loss
  by_cases h : pm.open_interest = 0
  · simp [h]
  · simp [h]

/-- C7 witness: market `pmW` (open interest `10`) socializing a quote
position of `-20` yields per-contract loss `-2` and zeroes the account's
quote position. -/
theorem socialize_loss_market_spec_witness :
    (pmW.socialize_loss paLoss pmcZero).1 = -2 ∧
    (pmW.socialize_loss paLoss pmcZero).2.2.1.quote_position = 0 := by
  have h := socialize_loss_market_spec pmW paLoss pmcZero
  have h2 := h.2.2.2.2.2.2 (by norm_num [pmW])
  constructor
  · rw [h2]
    norm_num [paLoss, paZero, pmW]
  · exact h.1

/-- C8. On a populated regime cache, `get_health_after_sim_perp` returns the
cached health plus the weighted simulated perp contribution minus the
weighted stored contribution of that market, minus a taker fee that is zero
when the `taker_quote` delta is zero and otherwise `taker_fee × |taker_quote|
× quote_lot_size`, plus a referral surcharge of `ref_surcharge_centibps /
1,000,000` of that notional exactly when the group contains the MNGO token
and the account's native MNGO deposit is below `ref_mngo_required`; a MNGO
lookup miss just disables the surcharge.  (The source takes `&self` and
mutates nothing; the embedding is a pure function of the cache.) -/
theorem get_health_after_sim_perp_spec (hc : HealthCache) (mngo_id : Pubkey)
    (g : MangoGroup) (mc : MangoCache) (ma : MangoAccount) (market_index : ℕ)
    (ht : HealthType) (tb tq bq aq : ℤ) (h : ℚ)
    (hcache : hc.health ht = some h) :
    hc.get_health_after_sim_perp mngo_id g mc ma market_index ht tb tq bq aq =
      some (h
        + weighted_val (perp_weights (g.perp_markets market_index) ht).1
            (perp_weights (g.perp_markets market_index) ht).2
            ((ma.perp_accounts market_index).sim_get_val (g.perp_markets market_index)
              (mc.perp_market_cache market_index) (mc.price_cache market_index).price
              tb tq bq aq)
        - weighted_val (perp_weights (g.perp_markets market_index) ht).1
            (perp_weights (g.perp_markets market_index) ht).2 (hc.perp market_index)
        - (if tq = 0 then 0
          else
            (g.perp_markets market_index).taker_fee *
              (((g.perp_markets market_index).quote_lot_size * |tq| : ℤ) : ℚ) +
            (match g.find_token_index mngo_id with
              | some mngo_index =>
                if ma.deposits mngo_index * (mc.root_bank_cache mngo_index).deposit_index <
                    (g.ref_mngo_required : ℚ) then
                  ((g.ref_surcharge_centibps : ℚ) / CENTIBPS_PER_UNIT) *
                    (((g.perp_markets market_index).quote_lot_size * |tq| : ℤ) : ℚ)
                else 0
              | none => 0))) := by
  unfold HealthCache.get_health_after_sim_perp
  rw [hcache]
  by_cases htq : tq = 0
  · simp [htq]
  · simp only [htq, ne_eq, not_false_eq_true, if_true, if_false, ite_not]
    cases hfind : g.find_token_index mngo_id with
    | none => simp [hfind, htq]
    | some mi =>
      simp only [hfind, MangoAccount.get_native_deposit]
      split_ifs with hdep
      · simp [htq]
      · simp [htq]

/-- C8 witness: on `hcWM` (cached maintenance health `10`), simulating
`taker_base = 1`, `taker_quote = 2` on market 0 of `gW` with the MNGO token
found at slot 0 and a native MNGO deposit of `5 < 10000`, the projection is
`10 + 19/5 - (-12/5) - (1/50 + 1/5000) = 80899/5000`. -/
theorem get_health_after_sim_perp_spec_witness :
    hcWM.get_health_after_sim_perp 3 gW mcW maW 0 HealthType.Maint 1 2 0 0 =
      some (80899/5000) := by
  have hmain := get_health_after_sim_perp_spec hcWM 3 gW mcW maW 0 HealthType.Maint 1 2 0 0 10 rfl
  have hfind : gW.find_token_index 3 = some 0 := by rfl
  rw [hmain, hfind]
  norm_num [weighted_val, perp_weights, PerpAccount.sim_get_val,
    PerpAccount.get_quote_position, hcWM, hcW, maW, mcW, gW, pmiUnit,
    paOneLong, paZero, pmcZero, CENTIBPS_PER_UNIT]

/-- C10. `get_health_after_sim_perp` reads the regime's cached health
unconditionally: when `get_health` has never populated that regime the call
fails (the source's `.unwrap()` panic, modelled as `none`), and whenever the
regime's health has been computed the failing branch is unreachable (the
result is always `some`). -/
theorem get_health_after_sim_perp_unwrap (hc : HealthCache) (mngo_id : Pubkey)
    (g : MangoGroup) (mc : MangoCache) (ma : MangoAccount) (market_index : ℕ)
    (ht : HealthType) (tb tq bq aq : ℤ) :
    (hc.health ht = none →
      hc.get_health_after_sim_perp mngo_id g mc ma market_index ht tb tq bq aq = none) ∧
    (∀ x, hc.health ht = some x →
      (hc.get_health_after_sim_perp mngo_id g mc ma market_index ht tb tq bq aq).isSome = true) := by
  unfold HealthCache.get_health_after_sim_perp
  constructor
  · intro h
    rw [h]
  · intro x h
    rw [h]
    rfl

/-- C10 witness: on the never-computed cache `hcW` the simulated projection
is `none`. -/
theorem get_health_after_sim_perp_unwrap_witness :
    hcW.get_health_after_sim_perp 3 gW mcW maW 0 HealthType.Maint 0 0 0 0 = none :=
  (get_health_after_sim_perp_unwrap hcW 3 gW mcW maW 0 HealthType.Maint 0 0 0 0).1 rfl

/-- C9. When the points passed to `convert_points` exceed `mngo_left / rate`,
the call awards exactly `mngo_left` payout units, rolls the period
(`period_start := time_final`, `rate` multiplied by `clamp((time_final − old
period_start) / target_period_length, 0.25, 4)` — so the post-rollover rate
stays within `[0.25×, 4×]` of its previous value — and `mngo_left` reset to
`mngo_per_period`) before converting the remainder points at the new rate,
with every single award capped at `mngo_per_period`. -/
theorem convert_points_rollover (pa : PerpAccount) (lmi : LiquidityMiningInfo)
    (time_final : ℕ) (points : ℚ) (adj rate2 : ℚ) (earned : ℕ)
    (hrate : 0 < lmi.rate)
    (hlen : 0 < lmi.target_period_length)
    (hstart : lmi.period_start ≤ time_final)
    (hbudget : lmi.mngo_left ≤ lmi.mngo_per_period)
    (hexceed : (lmi.mngo_left : ℚ) / lmi.rate < points)
    (hadj : adj = max MIN_RATE_ADJ (min MAX_RATE_ADJ
        (((time_final - lmi.period_start : ℕ) : ℚ) / (lmi.target_period_length : ℚ))))
    (hrate2 : rate2 = lmi.rate * adj)
    (hearned : earned =
      min (Int.toNat ⌊(points - (lmi.mngo_left : ℚ) / lmi.rate) * rate2⌋) lmi.mngo_per_period) :
    (pa.convert_points lmi time_final points).1.mngo_accrued =
      pa.mngo_accrued + lmi.mngo_left + earned ∧
    (pa.convert_points lmi time_final points).2.period_start = time_final ∧
    (pa.convert_points lmi time_final points).2.rate = rate2 ∧
    MIN_RATE_ADJ * lmi.rate ≤ rate2 ∧ rate2 ≤ MAX_RATE_ADJ * lmi.rate ∧
    (pa.convert_points lmi time_final points).2.mngo_left =
      lmi.mngo_per_period - earned ∧
    earned ≤ lmi.mngo_per_period := by
  have hminmax : MIN_RATE_ADJ ≤ MAX_RATE_ADJ := by
    norm_num [MIN_RATE_ADJ, MAX_RATE_ADJ]
  have hadj_lo : MIN_RATE_ADJ ≤ adj := hadj ▸ le_max_left _ _
  have hadj_hi : adj ≤ MAX_RATE_ADJ := hadj ▸ max_le hminmax (min_le_left _ _)
  subst hearned
  subst hrate2
  subst hadj
  simp only [PerpAccount.convert_points]
  rw [if_pos (le_of_lt hexceed : points ≥ (lmi.mngo_left : ℚ) / lmi.rate)]
  refine ⟨rfl, rfl, rfl, ?_, ?_, rfl, min_le_right _ _⟩
  · rw [mul_comm MIN_RATE_ADJ]
    exact mul_le_mul_of_nonneg_left hadj_lo hrate.le
  · rw [mul_comm MAX_RATE_ADJ]
    exact mul_le_mul_of_nonneg_left hadj_hi hrate.le

/-- C9 witness: `lmiW` (rate `2`, `100` of `1000` left, target period `100`s
from `0`) converted with `60` points at `time_final = 400`: budget `100`
awarded, rate retuned by `clamp(400/100, 1/4, 4) = 4` to `8`, remainder `10`
points earn `80`, leaving `920`. -/
theorem convert_points_rollover_witness :
    (paZero.convert_points lmiW 400 60).1.mngo_accrued =
      paZero.mngo_accrued + lmiW.mngo_left + 80 ∧
    (paZero.convert_points lmiW 400 60).2.period_start = 400 ∧
    (paZero.convert_points lmiW 400 60).2.rate = 8 ∧
    MIN_RATE_ADJ * lmiW.rate ≤ 8 ∧ (8:ℚ) ≤ MAX_RATE_ADJ * lmiW.rate ∧
    (paZero.convert_points lmiW 400 60).2.mngo_left = lmiW.mngo_per_period - 80 ∧
    80 ≤ lmiW.mngo_per_period :=
  convert_points_rollover paZero lmiW 400 60 4 8 80
    (by norm_num [lmiW])
    (by norm_num [lmiW])
    (by norm_num [lmiW])
    (by norm_num [lmiW])
    (by norm_num [lmiW])
    (by norm_num [lmiW, MIN_RATE_ADJ, MAX_RATE_ADJ])
    (by norm_num [lmiW])
    (by norm_num [lmiW]; rfl)

/-- Incremental updates never change the active-asset set. -/
theorem apply_update_active_assets (hc : HealthCache) (g : MangoGroup)
    (u : HCUpdate) : (hc.apply_update g u).active_assets = hc.active_assets := by
  cases u <;> rfl

/-- A sum over `Finset.range n` whose summand changes only at one point
`i < n` changes by exactly the difference at that point. -/
theorem sum_range_update_point (n i : ℕ) (f g : ℕ → ℚ) (hi : i < n)
    (hoff : ∀ j, j ≠ i → g j = f j) :
    ∑ j in Finset.range n, g j = ∑ j in Finset.range n, f j + (g i - f i) := by
  have h1 : ∑ j in Finset.range n, (g j - f j) = g i - f i := by
    rw [Finset.sum_eq_single i]
    · intro b _ hb
      rw [hoff b hb]
      ring
    · intro hmem
      exact absurd (Finset.mem_range.mpr hi) hmem
  have h2 : ∑ j in Finset.range n, (g j - f j) =
      ∑ j in Finset.range n, g j - ∑ j in Finset.range n, f j :=
    Finset.sum_sub_distrib
  rw [h2] at h1
  linarith

/-- `update_quote` shifts the from-scratch health by the quote delta. -/
theorem health_from_scratch_update_quote (g : MangoGroup) (hc : HealthCache)
    (mc : MangoCache) (ma : MangoAccount) (ht : HealthType) :
    health_from_scratch g (hc.update_quote mc ma) ht =
      health_from_scratch g hc ht - hc.quote +
        ma.get_net (mc.root_bank_cache QUOTE_INDEX) QUOTE_INDEX := by
  simp only [health_from_scratch, HealthCache.update_quote]
  ring

/-- `update_perp_val` on an active, in-range market shifts the from-scratch
health by the weighted value delta of that market. -/
theorem health_from_scratch_update_perp_val (g : MangoGroup) (hc : HealthCache)
    (mc : MangoCache) (ma : MangoAccount) (i : ℕ) (ht : HealthType)
    (hact : hc.active_assets.perps i = true) (hlt : i < g.num_oracles) :
    health_from_scratch g (hc.update_perp_val g mc ma i) ht =
      health_from_scratch g hc ht
        + weighted_val (perp_weights (g.perp_markets i) ht).1
            (perp_weights (g.perp_markets i) ht).2
            ((ma.perp_accounts i).get_val (g.perp_markets i)
              (mc.perp_market_cache i) (mc.price_cache i).price)
        - weighted_val (perp_weights (g.perp_markets i) ht).1
            (perp_weights (g.perp_markets i) ht).2 (hc.perp i) := by
  simp only [health_from_scratch, HealthCache.update_perp_val]
  rw [sum_range_update_point g.num_oracles i
    (health_slot_contrib g hc.active_assets hc.spot hc.perp ht)
    (health_slot_contrib g hc.active_assets hc.spot
      (fun j => if j = i then
          (ma.perp_accounts i).get_val (g.perp_markets i)
            (mc.perp_market_cache i) (mc.price_cache i).price
        else hc.perp j) ht)
    hlt ?_]
  · simp only [health_slot_contrib, hact, if_true, if_pos rfl]
    ring
  · intro j hj
    simp only [health_slot_contrib, if_neg hj]

/-- One incremental update preserves coherence of a populated regime cache
with the from-scratch health, provided it targets an active slot. -/
theorem coherent_apply_update (g : MangoGroup) (hc : HealthCache)
    (ht : HealthType) (u : HCUpdate)
    (hu : u.targets_active g hc.active_assets)
    (hcoh : hc.health ht = some (health_from_scratch g hc ht)) :
    (hc.apply_update g u).health ht =
      some (health_from_scratch g (hc.apply_update g u) ht) := by
  cases u with
  | updateQuote mc ma =>
    show (hc.update_quote mc ma).health ht =
      some (health_from_scratch g (hc.update_quote mc ma) ht)
    rw [health_from_scratch_update_quote g hc mc ma ht]
    simp only [HealthCache.update_quote, hcoh, Option.map_some']
    congr 1
    ring
  | updatePerpVal mc ma i =>
    obtain ⟨hact, hlt⟩ := hu
    show (hc.update_perp_val g mc ma i).health ht =
      some (health_from_scratch g (hc.update_perp_val g mc ma i) ht)
    rw [health_from_scratch_update_perp_val g hc mc ma i ht hact hlt]
    simp only [HealthCache.update_perp_val, hcoh, Option.map_some']

/-- A sequence of incremental updates targeting active slots preserves
coherence of a populated regime cache with the from-scratch health. -/
theorem coherent_apply_updates (g : MangoGroup) (ht : HealthType)
    (us : List HCUpdate) :
    ∀ hc : HealthCache,
      (∀ u ∈ us, u.targets_active g hc.active_assets) →
      hc.health ht = some (health_from_scratch g hc ht) →
      (hc.apply_updates g us).health ht =
        some (health_from_scratch g (hc.apply_updates g us) ht) := by
  induction us with
  | nil => intro hc _ hcoh; exact hcoh
  | cons u rest ih =>
    intro hc hact hcoh
    show ((hc.apply_update g u).apply_updates g rest).health ht = _
    refine ih (hc.apply_update g u) ?_ ?_
    · intro u' hu'
      rw [apply_update_active_assets]
      exact hact u' (List.mem_cons_of_mem u hu')
    · exact coherent_apply_update g hc ht u (hact u (List.mem_cons_self u rest)) hcoh

/-- C3 (amended).  Populate a regime's health with `get_health` and then
apply an arbitrary sequence of `update_quote` / `update_perp_val` calls,
**provided every `update_perp_val` targets a perp slot that is active in the
cache's active-asset set and within the group's configured markets** (the
amendment the counterexample forces): the cached health then equals the
health `get_health` computes from scratch on a freshly initialized
`HealthCache` holding the same final state. -/
theorem incremental_updates_match_recompute (g : MangoGroup)
    (hc0 : HealthCache) (ht : HealthType) (us : List HCUpdate)
    (hnone : hc0.health ht = none)
    (hact : ∀ u ∈ us, u.targets_active g hc0.active_assets) :
    (((hc0.get_health g ht).2).apply_updates g us).health ht =
      some ((({ ((hc0.get_health g ht).2).apply_updates g us with
          health := fun _ => none } : HealthCache).get_health g ht).1) := by
  have hfix : (hc0.get_health g ht).2 =
      { hc0 with health := fun t =>
          if t = ht then some (health_from_scratch g hc0 ht) else hc0.health t } := by
    rw [get_health_none hc0 g ht hnone]
  have h1 : ((hc0.get_health g ht).2).health ht =
      some (health_from_scratch g ((hc0.get_health g ht).2) ht) := by
    rw [hfix]
    simp only [if_pos rfl]
    rfl
  have hactive : ((hc0.get_health g ht).2).active_assets = hc0.active_assets := by
    rw [hfix]
  have h2 := coherent_apply_updates g ht us ((hc0.get_health g ht).2)
    (by rw [hactive]; exact hact) h1
  rw [h2,
    get_health_fst_of_none
      ({ ((hc0.get_health g ht).2).apply_updates g us with
          health := fun _ => none } : HealthCache) g ht rfl]
  rfl

/-- C3 witness: on the one-market group `gW` with slot 0 active, populate the
equity health of a cache and push one perp update and one quote update
through; the cached health matches a from-scratch recomputation. -/
theorem incremental_updates_match_recompute_witness :
    (((hcW.get_health gW HealthType.Equity).2).apply_updates gW
        [HCUpdate.updatePerpVal mcW maW 0, HCUpdate.updateQuote mcW maW]).health
        HealthType.Equity =
      some ((({ ((hcW.get_health gW HealthType.Equity).2).apply_updates gW
          [HCUpdate.updatePerpVal mcW maW 0, HCUpdate.updateQuote mcW maW] with
          health := fun _ => none } : HealthCache).get_health gW HealthType.Equity).1) :=
  incremental_updates_match_recompute gW hcW HealthType.Equity
    [HCUpdate.updatePerpVal mcW maW 0, HCUpdate.updateQuote mcW maW]
    rfl
    (by
      intro u hu
      rcases List.mem_cons.mp hu with h | h
      · subst h
        exact ⟨by norm_num [hcW, activeW], by norm_num [gW]⟩
      · rcases List.mem_cons.mp h with h' | h'
        · subst h'
          exact trivial
        · exact absurd h' (List.not_mem_nil _))

/-- C3 counterexample to the claim as stated ("arbitrary sequence"): over
`gW`, a cache whose active-asset set has **no** active slots is populated
(equity health `0` from quote `0`), then `update_perp_val` is called on the
inactive market 0 where the account holds one long contract (value `(1, 0)`
at unit price/lots).  The incremental path caches `0 + 1 - 0 = 1`, but a
from-scratch recomputation over the same final state yields `0`. -/
theorem incremental_update_inactive_counterexample :
    ((((HealthCache.new activeNone).get_health gW HealthType.Equity).2).apply_updates gW
        [HCUpdate.updatePerpVal mcW maW 0]).health HealthType.Equity = some 1 ∧
    ((({ (((HealthCache.new activeNone).get_health gW HealthType.Equity).2).apply_updates gW
        [HCUpdate.updatePerpVal mcW maW 0] with
        health := fun _ => none } : HealthCache).get_health gW HealthType.Equity).1) = 0 ∧
    (1 : ℚ) ≠ 0 := by
  have hfix := congrArg Prod.snd
    (get_health_none (HealthCache.new activeNone) gW HealthType.Equity rfl)
  refine ⟨?_, ?_, by norm_num⟩
  · rw [hfix]
    simp only [HealthCache.apply_updates, List.foldl_cons, List.foldl_nil,
      HealthCache.apply_update, HealthCache.update_perp_val]
    norm_num [health_from_scratch, health_slot_contrib, HealthCache.new,
      activeNone, gW, weighted_val, perp_weights, PerpAccount.get_val,
      PerpAccount.get_quote_position, maW, mcW, pmiUnit, paOneLong, paZero, pmcZero]
  · rw [get_health_fst_of_none
      ({ (((HealthCache.new activeNone).get_health gW HealthType.Equity).2).apply_updates gW
          [HCUpdate.updatePerpVal mcW maW 0] with
          health := fun _ => none } : HealthCache) gW HealthType.Equity rfl]
    rw [hfix]
    norm_num [health_from_scratch, health_slot_contrib, HealthCache.new,
      activeNone, gW, HealthCache.apply_updates, HealthCache.apply_update,
      HealthCache.update_perp_val]

end Mangol
